import Mathlib

/-!
A shallow embedding of `src/streamlit/app.py` from the qwen2.5VLM-OCR
repository: a Streamlit front-end that rasterizes uploaded PDFs into page
images, dispatches one vision-language OCR request per page through a
bounded thread pool, and reassembles per-document, per-page results.

Line numbers in the doc comments refer to `src/streamlit/app.py`.
-/

namespace QwenOCR

/-- Page images produced by `pdf2image.convert_from_bytes` are opaque to the
pipeline (they are only serialized and forwarded); we model them by an
abstract identifier. -/
abbrev Image := Nat

/-- An uploaded file as captured in `st.session_state.uploaded_files`
(line 158): a dict holding the file's `name` and its raw `data` bytes. -/
structure StoredFile where
  name : String
  data : List Nat
deriving DecidableEq, Repr

/-- One element of the flattened `all_pages` batch (line 174): the triple
`(file_name, page, i+1)` submitted to the pool. -/
structure WorkItem where
  file_name : String
  page : Image
  page_idx : Nat
deriving DecidableEq, Repr

/-- One entry of `st.session_state.file_results[file_name]` (lines 198-204):
the dict `{page, text, page_time, img_b64, image}`; `page` is the 1-based
page index. Times are abstract clock readings (naturals). -/
structure PageResult where
  page : Nat
  text : String
  page_time : Nat
  img_b64 : String
  image : Image
deriving DecidableEq, Repr

/-- One entry of `st.session_state.debug_info` (lines 178-181). -/
structure DebugInfo where
  pdf_size : Nat
  page_count : Nat
deriving DecidableEq, Repr

/-- Python-dict assignment `d[k] = v` on an insertion-ordered association
list: overwrite in place when the key is present, append otherwise. -/
def dictSet (k : String) (v : α) : List (String × α) → List (String × α)
  | [] => [(k, v)]
  | (k', v') :: rest => if k' = k then (k, v) :: rest else (k', v') :: dictSet k v rest

/-- Python-dict lookup `d[k]` (as an `Option`): first binding of the key. -/
def dictGet (k : String) : List (String × α) → Option α
  | [] => none
  | (k', v') :: rest => if k' = k then some v' else dictGet k rest

/-- `st.session_state.file_results[file_name].append(r)` (lines 198-204):
append `r` to the list stored at the key. A missing key raises a `KeyError`
in the source, which the surrounding `except` (line 205) swallows after
showing an error notice; we model that path as leaving the dictionary
unchanged (the run model only ever appends under keys that rasterization
created). -/
def dictAppendKey (k : String) (r : PageResult) :
    List (String × List PageResult) → List (String × List PageResult)
  | [] => []
  | (k', v) :: rest =>
      if k' = k then (k', v ++ [r]) :: rest else (k', v) :: dictAppendKey k r rest

/-- Lines 74-87: `MAX_WORKERS` from GPU telemetry. The input is
`some (device_count, free_bytes)` when the `pynvml` queries succeed and
`none` when any of them raises. In the source, `free_mem = mem_info.free /
1024**3` (GB, exact true division) followed by `int(free_mem // 3)` is the
floor of `free_bytes / (3 * 2^30)`, which is Nat division here. -/
def MAX_WORKERS : Option (Nat × Nat) → Nat
  | none => 2
  | some (device_count, free) =>
      if device_count > 0 then min 4 (max 1 (free / (3 * 2 ^ 30))) else 2

/-- An HTTP response as `process_page` consumes it: `status` is
`response.status_code`, `bodyText` is `response.text`, and `content` is the
outcome of `response.json()["choices"][0]["message"]["content"]` —
`.error msg` when that parse or field lookup raises, carrying the
exception's text. -/
structure HttpResponse where
  status : Nat
  bodyText : String
  content : Except String String
deriving Repr

/-- Outcome of `requests.post` (line 138): either a response arrived, or a
transport-level exception (timeout, connection failure) with its message. -/
inductive CallResult where
  | response (r : HttpResponse)
  | exn (msg : String)
deriving Repr

/-- Lines 137-144: the text `process_page` records for a page. Status 200
with a well-formed body yields the first choice's content; status 200 with a
malformed body raises inside the `try` and is caught (`"Exception: ..."`);
any other status yields `"Error: <status> - <body>"`; a transport fault
yields `"Exception: ..."`. -/
def inferText : CallResult → String
  | .exn m => "Exception: " ++ m
  | .response r =>
      if r.status = 200 then
        match r.content with
        | .ok c => c
        | .error m => "Exception: " ++ m
      else
        "Error: " ++ toString r.status ++ " - " ++ r.bodyText

/-- The 6-tuple returned by `process_page` (line 146). -/
structure PageReturn where
  file_name : String
  page_idx : Nat
  text : String
  page_time : Nat
  img_b64 : String
  image : Image
deriving DecidableEq, Repr

/-- Lines 111-146: `process_page(file_name, page, page_idx)`. The PNG
serialization and base64 encoding of the page (PIL and `base64`, external
libraries) are abstracted by the `img_b64` argument; `elapsed` is the wall
clock the call spent (`time.time() - page_start_time`), and `outcome` the
network call's result. -/
def process_page (file_name : String) (page : Image) (page_idx : Nat)
    (img_b64 : String) (outcome : CallResult) (elapsed : Nat) : PageReturn :=
  ⟨file_name, page_idx, inferText outcome, elapsed, img_b64, page⟩

/-- A small JSON value type for stating the request body's shape. -/
inductive JsonVal where
  | str (s : String)
  | num (q : ℚ)
  | arr (elems : List JsonVal)
  | obj (fields : List (String × JsonVal))

/-- Line 72: the vLLM endpoint URL. -/
def VLLM_URL : String := "http://qwen-vlm:8000/v1/chat/completions"

/-- Lines 118-136: the JSON payload `process_page` builds for one page. -/
def payload (img_b64 : String) : JsonVal :=
  .obj [
    ("model", .str "Qwen/Qwen2.5-VL-3B-Instruct-AWQ"),
    ("messages", .arr [
      .obj [
        ("role", .str "user"),
        ("content", .arr [
          .obj [("type", .str "text"),
                ("text", .str "Please extract all text from this image.")],
          .obj [("type", .str "image_url"),
                ("image_url",
                 .obj [("url", .str ("data:image/png;base64," ++ img_b64))])]])]]),
    ("max_tokens", .num 4096),
    ("temperature", .num 0)]

/-- An HTTP request as issued by the client. -/
structure HttpRequest where
  method : String
  url : String
  body : JsonVal
  timeoutSecs : Nat

/-- Line 138: the single `requests.post(VLLM_URL, json=payload, ...,
timeout=60)` issued for one page. -/
def pageRequest (img_b64 : String) : HttpRequest :=
  ⟨"POST", VLLM_URL, payload img_b64, 60⟩

/-- The request envelope exactly as the spec's external-interface section
words it — a POST of `{model, messages: [one user message whose content is
the fixed instruction text plus the base64 PNG inline data URL],
max_tokens: 4096, temperature: 0.0}` with a 60-second client-side timeout —
for comparison against `pageRequest`. -/
def specPageRequest (img_b64 : String) : HttpRequest where
  method := "POST"
  url := VLLM_URL
  body := .obj [
    ("model", .str "Qwen/Qwen2.5-VL-3B-Instruct-AWQ"),
    ("messages", .arr [
      .obj [
        ("role", .str "user"),
        ("content", .arr [
          .obj [("type", .str "text"),
                ("text", .str "Please extract all text from this image.")],
          .obj [("type", .str "image_url"),
                ("image_url",
                 .obj [("url", .str ("data:image/png;base64," ++ img_b64))])]])]]),
    ("max_tokens", .num 4096),
    ("temperature", .num 0)]
  timeoutSecs := 60

/-- Line 174: the work items one successfully rasterized document
contributes, `[(file_name, page, i+1) for i, page in enumerate(pages)]`. -/
def workItemsOf (n : String) (ps : List Image) : List WorkItem :=
  ps.enum.map fun ip => ⟨n, ip.2, ip.1 + 1⟩

/-- The state the rasterization loop (lines 162-183) threads: the flattened
batch, the page total, the three per-file dicts (freshly reset at lines
165-167), and the `st.error` notices shown so far. -/
structure RasterState where
  all_pages : List WorkItem
  total_pages : Nat
  file_times : List (String × Nat)
  file_results : List (String × List PageResult)
  debug_info : List (String × DebugInfo)
  errors : List String
deriving DecidableEq, Repr

/-- The loop body at lines 169-183 for one stored file. `raster` stands for
`pdf2image.convert_from_bytes` (external library): page list on success,
exception text on failure. `now` is the `time.time()` reading taken as the
file's `file_start_time`. -/
def rasterStep (raster : List Nat → Except String (List Image)) (now : Nat)
    (acc : RasterState) (f : StoredFile) : RasterState :=
  match raster f.data with
  | .ok pages =>
      { all_pages := acc.all_pages ++ workItemsOf f.name pages
        total_pages := acc.total_pages + pages.length
        file_times := dictSet f.name now acc.file_times
        file_results := dictSet f.name [] acc.file_results
        debug_info := dictSet f.name ⟨f.data.length, pages.length⟩ acc.debug_info
        errors := acc.errors }
  | .error e =>
      { acc with errors := acc.errors ++ ["Failed to process " ++ f.name ++ ": " ++ e] }

/-- The empty accumulator: dicts reset at lines 165-167, empty batch. -/
def emptyRaster : RasterState := ⟨[], 0, [], [], [], []⟩

/-- Lines 162-183: rasterize every stored file in order. -/
def rasterPhase (raster : List Nat → Except String (List Image)) (now : Nat)
    (files : List StoredFile) : RasterState :=
  files.foldl (rasterStep raster now) emptyRaster

/-- What `future.result()` delivers for one work item (line 194): either the
`process_page` tuple's payload fields (text, elapsed time, base64 image) —
`process_page` returns its `file_name`/`page_idx`/`page` arguments unchanged
— or an exception raised by the wrapper (e.g. by `page.save`), re-raised by
`future.result()` and caught at line 205. -/
inductive ItemOutcome where
  | ok (text : String) (page_time : Nat) (img_b64 : String)
  | raised (msg : String)
deriving DecidableEq, Repr

/-- Whether the work item's future returned normally. -/
def ItemOutcome.isOk : ItemOutcome → Bool
  | .ok _ _ _ => true
  | .raised _ => false

/-- The result entry appended at lines 198-204 for one completed item. -/
def mkResult (w : WorkItem) (text : String) (page_time : Nat) (img_b64 : String) :
    PageResult :=
  ⟨w.page_idx, text, page_time, img_b64, w.page⟩

/-- One iteration of the `as_completed` loop (lines 191-206), dictionary
component: a normally-returned future appends its entry under its file
name; a raised one appends nothing (its `except` branch only shows an
error). -/
def collectStep (d : List (String × List PageResult)) (c : WorkItem × ItemOutcome) :
    List (String × List PageResult) :=
  match c.2 with
  | .ok t tm b => dictAppendKey c.1.file_name (mkResult c.1 t tm b) d
  | .raised _ => d

/-- The `as_completed` loop (lines 191-206) over a completion sequence — the
futures in the order they complete, each with its outcome — dictionary
component. -/
def collectResults (completions : List (WorkItem × ItemOutcome))
    (d : List (String × List PageResult)) : List (String × List PageResult) :=
  completions.foldl collectStep d

/-- The `st.error` notices the `as_completed` loop shows (line 206), in
completion order. -/
def collectErrors (completions : List (WorkItem × ItemOutcome)) : List String :=
  completions.filterMap fun c =>
    match c.2 with
    | .ok _ _ _ => none
    | .raised m =>
        some ("Failed to process " ++ c.1.file_name ++ " - Page "
          ++ toString c.1.page_idx ++ ": " ++ m)

/-- Lines 208-210: `list.sort(key=lambda x: x["page"])`, an ascending stable
sort on the page index. -/
def sortByPage (l : List PageResult) : List PageResult :=
  List.insertionSort (fun a b => a.page ≤ b.page) l

/-- Lines 208-210 applied to every file's list. -/
def sortResults (d : List (String × List PageResult)) :
    List (String × List PageResult) :=
  d.map fun kv => (kv.1, sortByPage kv.2)

/-- The `st.session_state` fields the processing block reads and writes
(lines 89-99). -/
structure SessionState where
  file_results : List (String × List PageResult)
  file_times : List (String × Nat)
  debug_info : List (String × DebugInfo)
  processed : Bool
  uploaded_files : List StoredFile
deriving DecidableEq, Repr

/-- Lines 89-99: the initial session state. -/
def initState : SessionState := ⟨[], [], [], false, []⟩

/-- Lines 156-160: the stored file list after the name comparison — replaced
by the current uploads when the name lists differ, kept (with its old data)
when they coincide. -/
def storedOf (uploads : List StoredFile) (s : SessionState) : List StoredFile :=
  if uploads.map StoredFile.name ≠ s.uploaded_files.map StoredFile.name then uploads
  else s.uploaded_files

/-- Lines 148-214: one execution of the processing block (one Streamlit
rerun). Guarded by `if uploaded_files and not st.session_state.processed`
(line 149: list truthiness is nonemptiness). Inside: update the stored
uploads, reset and refill the per-file dicts while rasterizing, and — only
when the flattened batch is nonempty (line 185) — run the pool, collect the
completions, sort each file's results by page, and set `processed = True`
(line 212). Returns the new state and the `st.error` notices shown.
`completions` is the order in which `as_completed` yields the futures,
together with each future's outcome. -/
def processRun (raster : List Nat → Except String (List Image)) (now : Nat)
    (uploads : List StoredFile) (completions : List (WorkItem × ItemOutcome))
    (s : SessionState) : SessionState × List String :=
  if uploads ≠ [] ∧ s.processed = false then
    let stored := storedOf uploads s
    let r := rasterPhase raster now stored
    if r.all_pages ≠ [] then
      ({ file_results := sortResults (collectResults completions r.file_results)
         file_times := r.file_times
         debug_info := r.debug_info
         processed := true
         uploaded_files := stored },
       r.errors ++ collectErrors completions)
    else
      ({ file_results := r.file_results
         file_times := r.file_times
         debug_info := r.debug_info
         processed := s.processed
         uploaded_files := stored },
       r.errors)
  else (s, [])

/-- The per-file `st.error` notice of line 183 for a failed rasterization. -/
def rasterNotice (name msg : String) : String :=
  "Failed to process " ++ name ++ ": " ++ msg

/-- The page results a given file name receives from a completion sequence:
one entry per normally-returned future carrying that name, in completion
order (the order the loop appends them). -/
def resultsFor (n : String) (completions : List (WorkItem × ItemOutcome)) :
    List PageResult :=
  completions.filterMap fun c =>
    match c.2 with
    | .ok t tm b => if c.1.file_name = n then some (mkResult c.1 t tm b) else none
    | .raised _ => none

/-- The work items one stored file contributes to the batch. -/
def pagesOf (raster : List Nat → Except String (List Image)) (f : StoredFile) :
    List WorkItem :=
  match raster f.data with
  | .ok ps => workItemsOf f.name ps
  | .error _ => []

/-- Total number of collected page results across all files. -/
def totalResults (d : List (String × List PageResult)) : Nat :=
  (d.map fun kv => kv.2.length).sum

/-- Modelled from the spec: the scheduling state of the bounded worker pool.
`ThreadPoolExecutor`'s internals are library code outside this repository;
the spec's concurrency section describes a bounded pool of execution units
drawing work items from one shared queue, each blocking on its own network
call. `pending` is the shared queue, `running` the in-flight inference
calls, `done` the completed items. -/
structure PoolState where
  pending : List WorkItem
  running : List WorkItem
  done : List WorkItem

/-- Modelled from the spec: one scheduling transition of the bounded pool —
a unit may start the next queued item only while fewer than `N` calls are in
flight, and any in-flight call may finish. -/
inductive PoolStep (N : Nat) : PoolState → PoolState → Prop
  | start (w : WorkItem) (rest running done : List WorkItem)
      (h : running.length < N) :
      PoolStep N ⟨w :: rest, running, done⟩ ⟨rest, w :: running, done⟩
  | finish (pending pre post done : List WorkItem) (w : WorkItem) :
      PoolStep N ⟨pending, pre ++ w :: post, done⟩ ⟨pending, pre ++ post, w :: done⟩

/-- Modelled from the spec: the states the pool can reach by scheduling. -/
def PoolReach (N : Nat) : PoolState → PoolState → Prop :=
  Relation.ReflTransGen (PoolStep N)

/-- Modelled from the spec: the pool's starting state for a batch — the full
flattened batch queued, nothing in flight. -/
def initPool (batch : List WorkItem) : PoolState := ⟨batch, [], []⟩

/-! ### Association-list (Python dict) lemmas -/

theorem dictGet_dictSet_self (k : String) (v : α) (d : List (String × α)) :
    dictGet k (dictSet k v d) = some v := by
  induction d with
  | nil => simp [dictSet, dictGet]
  | cons kv rest ih =>
      by_cases h : kv.1 = k
      · simp [dictSet, dictGet, h]
      · simp [dictSet, dictGet, h, ih]

theorem dictGet_dictSet_ne (k k' : String) (v : α) (d : List (String × α))
    (h : k' ≠ k) : dictGet k (dictSet k' v d) = dictGet k d := by
  induction d with
  | nil => simp [dictSet, dictGet, h]
  | cons kv rest ih =>
      by_cases hk : kv.1 = k'
      · have hne : kv.1 ≠ k := by rw [hk]; exact h
        simp [dictSet, dictGet, hk, hne, h, ih]
      · by_cases hk2 : kv.1 = k
        · simp [dictSet, dictGet, hk, hk2, Ne.symm h]
        · simp [dictSet, dictGet, hk, hk2, ih]

theorem map_fst_dictAppendKey (k : String) (r : PageResult)
    (d : List (String × List PageResult)) :
    (dictAppendKey k r d).map Prod.fst = d.map Prod.fst := by
  induction d with
  | nil => simp [dictAppendKey]
  | cons kv rest ih =>
      by_cases h : kv.1 = k
      · simp [dictAppendKey, h]
      · simp [dictAppendKey, h, ih]

theorem dictGet_dictAppendKey_self (k : String) (r : PageResult)
    (d : List (String × List PageResult)) (v : List PageResult)
    (h : dictGet k d = some v) :
    dictGet k (dictAppendKey k r d) = some (v ++ [r]) := by
  induction d with
  | nil => simp [dictGet] at h
  | cons kv rest ih =>
      by_cases hk : kv.1 = k
      · simp [dictGet, hk] at h
        simp [dictAppendKey, dictGet, hk, h]
      · simp [dictGet, hk] at h
        simp [dictAppendKey, dictGet, hk, ih h]

theorem dictGet_dictAppendKey_ne (k k' : String) (r : PageResult)
    (d : List (String × List PageResult)) (h : k' ≠ k) :
    dictGet k (dictAppendKey k' r d) = dictGet k d := by
  induction d with
  | nil => simp [dictAppendKey]
  | cons kv rest ih =>
      by_cases hk : kv.1 = k'
      · have hne : kv.1 ≠ k := by rw [hk]; exact h
        simp [dictAppendKey, dictGet, hk, hne, h]
      · by_cases hk2 : kv.1 = k
        · simp [dictAppendKey, dictGet, hk, hk2, Ne.symm h]
        · simp [dictAppendKey, dictGet, hk, hk2, ih]

theorem dictGet_dictAppendKey_none (k' : String) (r : PageResult)
    (d : List (String × List PageResult)) (h : dictGet k' d = none) :
    dictAppendKey k' r d = d := by
  induction d with
  | nil => simp [dictAppendKey]
  | cons kv rest ih =>
      by_cases hk : kv.1 = k'
      · simp [dictGet, hk] at h
      · simp [dictGet, hk] at h
        simp [dictAppendKey, hk, ih h]

theorem isSome_dictGet_dictAppendKey (k k' : String) (r : PageResult)
    (d : List (String × List PageResult)) :
    (dictGet k (dictAppendKey k' r d)).isSome = (dictGet k d).isSome := by
  induction d with
  | nil => simp [dictAppendKey]
  | cons kv rest ih =>
      by_cases hk : kv.1 = k'
      · by_cases hk2 : kv.1 = k
        · have hkk : k' = k := hk.symm.trans hk2
          simp [dictAppendKey, dictGet, hk, hk2, hkk]
        · have hkk : ¬k' = k := fun e => hk2 (hk.trans e)
          simp [dictAppendKey, dictGet, hk, hk2, hkk, ih]
      · by_cases hk2 : kv.1 = k
        · have hkk : ¬k = k' := fun e => hk (hk2.trans e)
          simp [dictAppendKey, dictGet, hk, hk2, hkk]
        · simp [dictAppendKey, dictGet, hk, hk2, ih]

theorem totalResults_dictAppendKey (k : String) (r : PageResult)
    (d : List (String × List PageResult)) (h : (dictGet k d).isSome = true) :
    totalResults (dictAppendKey k r d) = totalResults d + 1 := by
  induction d with
  | nil => simp [dictGet] at h
  | cons kv rest ih =>
      by_cases hk : kv.1 = k
      · simp [dictAppendKey, hk, totalResults]
        omega
      · have h' : (dictGet k rest).isSome = true := by
          simpa [dictGet, hk] using h
        have hrec := ih h'
        simp [dictAppendKey, hk, totalResults] at hrec ⊢
        omega

/-! ### Sorting lemmas -/

/-- The comparison `key=lambda x: x["page"]` induces on result entries. -/
def pageLE (a b : PageResult) : Prop := a.page ≤ b.page

instance : DecidableRel pageLE := fun a b => Nat.decLe a.page b.page

instance : IsTotal PageResult pageLE := ⟨fun a b => Nat.le_total a.page b.page⟩

instance : IsTrans PageResult pageLE := ⟨fun _ _ _ => Nat.le_trans⟩

theorem sortByPage_eq_insertionSort (l : List PageResult) :
    sortByPage l = List.insertionSort pageLE l := rfl

theorem sortByPage_perm (l : List PageResult) : (sortByPage l).Perm l :=
  List.perm_insertionSort pageLE l

theorem sortByPage_length (l : List PageResult) :
    (sortByPage l).length = l.length :=
  (sortByPage_perm l).length_eq

theorem sortByPage_sorted (l : List PageResult) :
    List.Sorted pageLE (sortByPage l) :=
  List.sorted_insertionSort pageLE l

/-- A list of result entries whose page indices form a permutation of
`1..k` sorts to exactly the index sequence `1, 2, ..., k`. -/
theorem sortByPage_map_page_eq_range' (l : List PageResult) (k : Nat)
    (h : (l.map PageResult.page).Perm (List.range' 1 k)) :
    (sortByPage l).map PageResult.page = List.range' 1 k := by
  have hperm : ((sortByPage l).map PageResult.page).Perm (List.range' 1 k) :=
    ((sortByPage_perm l).map PageResult.page).trans h
  have hsorted_le : List.Sorted (· ≤ ·) ((sortByPage l).map PageResult.page) :=
    List.pairwise_map.mpr (sortByPage_sorted l)
  have hnodup : ((sortByPage l).map PageResult.page).Nodup :=
    (hperm.symm).nodup (List.nodup_range' 1 k)
  have hsorted_lt : List.Sorted (· < ·) ((sortByPage l).map PageResult.page) :=
    hsorted_le.lt_of_le hnodup
  exact List.eq_of_perm_of_sorted hperm hsorted_lt (List.pairwise_lt_range' 1 k)

theorem dictGet_sortResults (k : String) (d : List (String × List PageResult)) :
    dictGet k (sortResults d) = (dictGet k d).map sortByPage := by
  induction d with
  | nil => simp [sortResults, dictGet]
  | cons kv rest ih =>
      by_cases h : kv.1 = k
      · simp [sortResults, dictGet, h]
      · simp [sortResults, dictGet, h] at ih ⊢
        exact ih

theorem totalResults_sortResults (d : List (String × List PageResult)) :
    totalResults (sortResults d) = totalResults d := by
  induction d with
  | nil => simp [sortResults, totalResults]
  | cons kv rest ih =>
      simp [sortResults, totalResults, sortByPage_length] at ih ⊢
      exact ih

theorem map_fst_sortResults (d : List (String × List PageResult)) :
    (sortResults d).map Prod.fst = d.map Prod.fst := by
  induction d with
  | nil => rfl
  | cons kv rest ih => simp [sortResults] at ih ⊢; try exact ih

/-! ### Work-item batch lemmas -/

theorem workItemsOf_map_page_idx (n : String) (ps : List Image) :
    (workItemsOf n ps).map WorkItem.page_idx = List.range' 1 ps.length := by
  rw [List.range'_eq_map_range, workItemsOf, List.map_map]
  have h2 : (WorkItem.page_idx ∘ fun ip : Nat × Image => (⟨n, ip.2, ip.1 + 1⟩ : WorkItem))
      = ((· + 1) ∘ Prod.fst) := rfl
  rw [h2, ← List.map_map, List.enum_map_fst]
  exact List.map_congr_left fun a _ => Nat.add_comm a 1

theorem workItemsOf_length (n : String) (ps : List Image) :
    (workItemsOf n ps).length = ps.length := by
  have := congrArg List.length (workItemsOf_map_page_idx n ps)
  simpa using this

theorem workItemsOf_file_name (n : String) (ps : List Image) :
    ∀ w ∈ workItemsOf n ps, w.file_name = n := by
  intro w hw
  simp only [workItemsOf, List.mem_map] at hw
  obtain ⟨ip, _, rfl⟩ := hw
  rfl

theorem workItemsOf_eq_nil (n : String) (ps : List Image)
    (h : workItemsOf n ps = []) : ps = [] := by
  have := workItemsOf_length n ps
  rw [h] at this
  exact List.length_eq_zero.mp this.symm

theorem pagesOf_file_name (raster : List Nat → Except String (List Image))
    (g : StoredFile) : ∀ w ∈ pagesOf raster g, w.file_name = g.name := by
  intro w hw
  unfold pagesOf at hw
  cases hr : raster g.data with
  | ok ps => rw [hr] at hw; exact workItemsOf_file_name g.name ps w hw
  | error e => rw [hr] at hw; simp at hw

/-! ### Rasterization-loop lemmas -/

theorem rasterFold_all_pages (raster : List Nat → Except String (List Image))
    (now : Nat) (files : List StoredFile) (acc : RasterState) :
    (files.foldl (rasterStep raster now) acc).all_pages
      = acc.all_pages ++ files.flatMap (pagesOf raster) := by
  induction files generalizing acc with
  | nil => simp
  | cons f rest ih =>
      rw [List.foldl_cons, ih]
      cases hr : raster f.data with
      | ok ps => simp [rasterStep, pagesOf, hr]
      | error e => simp [rasterStep, pagesOf, hr]

theorem rasterPhase_all_pages (raster : List Nat → Except String (List Image))
    (now : Nat) (files : List StoredFile) :
    (rasterPhase raster now files).all_pages = files.flatMap (pagesOf raster) := by
  rw [rasterPhase, rasterFold_all_pages]
  rfl

theorem rasterFold_errors (raster : List Nat → Except String (List Image))
    (now : Nat) (files : List StoredFile) (acc : RasterState) :
    (files.foldl (rasterStep raster now) acc).errors
      = acc.errors ++ files.filterMap fun f =>
          match raster f.data with
          | .ok _ => none
          | .error e => some (rasterNotice f.name e) := by
  induction files generalizing acc with
  | nil => simp
  | cons f rest ih =>
      rw [List.foldl_cons, ih]
      cases hr : raster f.data with
      | ok ps => simp [rasterStep, hr]
      | error e => simp [rasterStep, hr, rasterNotice]

theorem mem_dictSet (k : String) (v : α) (d : List (String × α)) :
    ∀ kv ∈ dictSet k v d, kv = (k, v) ∨ kv ∈ d := by
  induction d with
  | nil => simp [dictSet]
  | cons hd rest ih =>
      intro kv hkv
      by_cases h : hd.1 = k
      · simp only [dictSet, if_pos h, List.mem_cons] at hkv
        rcases hkv with h1 | h1
        · exact Or.inl h1
        · exact Or.inr (List.mem_cons_of_mem _ h1)
      · simp only [dictSet, if_neg h, List.mem_cons] at hkv
        rcases hkv with h1 | h1
        · exact Or.inr (h1 ▸ List.mem_cons_self hd rest)
        · rcases ih kv h1 with h2 | h2
          · exact Or.inl h2
          · exact Or.inr (List.mem_cons_of_mem _ h2)

theorem rasterFold_values_nil (raster : List Nat → Except String (List Image))
    (now : Nat) (files : List StoredFile) (acc : RasterState)
    (hacc : ∀ kv ∈ acc.file_results, kv.2 = []) :
    ∀ kv ∈ (files.foldl (rasterStep raster now) acc).file_results, kv.2 = [] := by
  induction files generalizing acc with
  | nil => exact hacc
  | cons f rest ih =>
      rw [List.foldl_cons]
      apply ih
      cases hr : raster f.data with
      | ok ps =>
          intro kv hkv
          rcases mem_dictSet f.name [] acc.file_results kv (by simpa [rasterStep, hr] using hkv)
            with h1 | h1
          · simp [h1]
          · exact hacc kv h1
      | error e =>
          intro kv hkv
          exact hacc kv (by simpa [rasterStep, hr] using hkv)

theorem totalResults_of_values_nil (d : List (String × List PageResult)) :
    (∀ kv ∈ d, kv.2 = []) → totalResults d = 0 := by
  induction d with
  | nil => intro _; rfl
  | cons kv rest ih =>
      intro h
      have h1 : kv.2 = [] := h kv (List.mem_cons_self _ _)
      have h2 : totalResults rest = 0 := ih fun x hx => h x (List.mem_cons_of_mem _ hx)
      simp only [totalResults, List.map_cons, List.sum_cons, h1, List.length_nil]
      simpa [totalResults] using h2

theorem dictGet_dictSet_isSome (k k' : String) (v : α) (d : List (String × α))
    (h : (dictGet k d).isSome = true) :
    (dictGet k (dictSet k' v d)).isSome = true := by
  by_cases hk : k' = k
  · subst hk; rw [dictGet_dictSet_self]; rfl
  · rw [dictGet_dictSet_ne k k' v d hk]; exact h

theorem rasterFold_keys (raster : List Nat → Except String (List Image))
    (now : Nat) (files : List StoredFile) (acc : RasterState)
    (hacc : ∀ w ∈ acc.all_pages, (dictGet w.file_name acc.file_results).isSome = true) :
    ∀ w ∈ (files.foldl (rasterStep raster now) acc).all_pages,
      (dictGet w.file_name (files.foldl (rasterStep raster now) acc).file_results).isSome
        = true := by
  induction files generalizing acc with
  | nil => exact hacc
  | cons f rest ih =>
      rw [List.foldl_cons]
      apply ih
      intro w hw
      cases hr : raster f.data with
      | ok ps =>
          simp only [rasterStep, hr] at hw ⊢
          rcases List.mem_append.mp hw with h1 | h1
          · exact dictGet_dictSet_isSome _ _ _ _ (hacc w h1)
          · rw [workItemsOf_file_name f.name ps w h1, dictGet_dictSet_self]
            rfl
      | error e =>
          simp only [rasterStep, hr] at hw ⊢
          exact hacc w hw

theorem rasterFold_untouched (raster : List Nat → Except String (List Image))
    (now : Nat) (n : String) (files : List StoredFile) (acc : RasterState)
    (h : ∀ f ∈ files, f.name = n → ∃ e, raster f.data = .error e) :
    dictGet n (files.foldl (rasterStep raster now) acc).file_results
        = dictGet n acc.file_results
    ∧ dictGet n (files.foldl (rasterStep raster now) acc).file_times
        = dictGet n acc.file_times
    ∧ dictGet n (files.foldl (rasterStep raster now) acc).debug_info
        = dictGet n acc.debug_info := by
  induction files generalizing acc with
  | nil => exact ⟨rfl, rfl, rfl⟩
  | cons f rest ih =>
      rw [List.foldl_cons]
      have hrest := ih (rasterStep raster now acc f)
        (fun g hg => h g (List.mem_cons_of_mem _ hg))
      cases hr : raster f.data with
      | ok ps =>
          have hne : f.name ≠ n := by
            intro he
            obtain ⟨e, herr⟩ := h f (List.mem_cons_self _ _) he
            rw [hr] at herr
            exact Except.noConfusion herr
          refine ⟨?_, ?_, ?_⟩
          · rw [hrest.1]; simp only [rasterStep, hr]
            exact dictGet_dictSet_ne n f.name _ _ hne
          · rw [hrest.2.1]; simp only [rasterStep, hr]
            exact dictGet_dictSet_ne n f.name _ _ hne
          · rw [hrest.2.2]; simp only [rasterStep, hr]
            exact dictGet_dictSet_ne n f.name _ _ hne
      | error e =>
          refine ⟨?_, ?_, ?_⟩
          · rw [hrest.1]; simp [rasterStep, hr]
          · rw [hrest.2.1]; simp [rasterStep, hr]
          · rw [hrest.2.2]; simp [rasterStep, hr]

theorem rasterPhase_get_of_mem (raster : List Nat → Except String (List Image))
    (now : Nat) (files : List StoredFile) (f : StoredFile) (ps : List Image)
    (hnd : (files.map StoredFile.name).Nodup) (hf : f ∈ files)
    (hok : raster f.data = .ok ps) :
    dictGet f.name (rasterPhase raster now files).file_results = some []
    ∧ dictGet f.name (rasterPhase raster now files).file_times = some now
    ∧ dictGet f.name (rasterPhase raster now files).debug_info
        = some ⟨f.data.length, ps.length⟩ := by
  obtain ⟨pre, post, rfl⟩ := List.append_of_mem hf
  have hpost : f.name ∉ post.map StoredFile.name := by
    have h1 : (List.map StoredFile.name (f :: post)).Nodup :=
      ((List.nodup_append.mp (by simpa using hnd)).2.1)
    simpa using (List.nodup_cons.mp h1).1
  have hcond : ∀ g ∈ post, g.name = f.name → ∃ e, raster g.data = .error e := by
    intro g hg he
    exact absurd (he ▸ List.mem_map_of_mem StoredFile.name hg) hpost
  rw [rasterPhase, List.foldl_append, List.foldl_cons]
  set acc1 := pre.foldl (rasterStep raster now) emptyRaster with hacc1
  have hstep := rasterFold_untouched raster now f.name post (rasterStep raster now acc1 f) hcond
  refine ⟨?_, ?_, ?_⟩
  · rw [hstep.1]; simp only [rasterStep, hok]
    exact dictGet_dictSet_self _ _ _
  · rw [hstep.2.1]; simp only [rasterStep, hok]
    exact dictGet_dictSet_self _ _ _
  · rw [hstep.2.2]; simp only [rasterStep, hok]
    exact dictGet_dictSet_self _ _ _

theorem rasterPhase_get_none (raster : List Nat → Except String (List Image))
    (now : Nat) (files : List StoredFile) (n : String)
    (h : ∀ f ∈ files, f.name = n → ∃ e, raster f.data = .error e) :
    dictGet n (rasterPhase raster now files).file_results = none
    ∧ dictGet n (rasterPhase raster now files).file_times = none
    ∧ dictGet n (rasterPhase raster now files).debug_info = none := by
  have := rasterFold_untouched raster now n files emptyRaster h
  exact ⟨this.1, this.2.1, this.2.2⟩

/-- Filtering the flattened batch down to one successfully rasterized
document recovers exactly that document's work items, provided file names
are unique within the run (the spec's declared precondition on document
identity). -/
theorem flatMap_pages_filter (raster : List Nat → Except String (List Image))
    (files : List StoredFile) (f : StoredFile) (ps : List Image)
    (hnd : (files.map StoredFile.name).Nodup) (hf : f ∈ files)
    (hok : raster f.data = .ok ps) :
    (files.flatMap (pagesOf raster)).filter (fun w => w.file_name = f.name)
      = workItemsOf f.name ps := by
  obtain ⟨pre, post, rfl⟩ := List.append_of_mem hf
  have hmap : (List.map StoredFile.name pre ++ List.map StoredFile.name (f :: post)).Nodup := by
    simpa using hnd
  have hnd3 := List.nodup_append.mp hmap
  have hpre : f.name ∉ pre.map StoredFile.name := fun hmem =>
    (hnd3.2.2 hmem) (by simp)
  have hpost : f.name ∉ post.map StoredFile.name := by
    have h1 : (List.map StoredFile.name (f :: post)).Nodup := hnd3.2.1
    simpa using (List.nodup_cons.mp h1).1
  have hblock : ∀ (g : StoredFile), g.name ≠ f.name →
      (pagesOf raster g).filter (fun w => w.file_name = f.name) = [] := by
    intro g hg
    apply List.filter_eq_nil_iff.mpr
    intro w hw
    simp only [decide_eq_true_eq]
    rw [pagesOf_file_name raster g w hw]
    exact hg
  have hside : ∀ (l : List StoredFile), f.name ∉ l.map StoredFile.name →
      (l.flatMap (pagesOf raster)).filter (fun w => w.file_name = f.name) = [] := by
    intro l hl
    induction l with
    | nil => rfl
    | cons g rest ih =>
        have hg : g.name ≠ f.name := fun he => hl (by simp [he])
        have hrest : f.name ∉ rest.map StoredFile.name := fun hmem => hl (by simp [hmem])
        simp only [List.flatMap_cons, List.filter_append, hblock g hg, ih hrest,
          List.nil_append]
  rw [List.flatMap_append, List.flatMap_cons, List.filter_append, List.filter_append,
    hside pre hpre, hside post hpost]
  have hown : (pagesOf raster f).filter (fun w => w.file_name = f.name)
      = workItemsOf f.name ps := by
    have h1 : pagesOf raster f = workItemsOf f.name ps := by
      simp [pagesOf, hok]
    rw [h1]
    apply List.filter_eq_self.mpr
    intro w hw
    simp only [decide_eq_true_eq]
    exact workItemsOf_file_name f.name ps w hw
  simp [hown]

/-! ### Collection-loop lemmas -/

theorem map_fst_collectStep (d : List (String × List PageResult))
    (c : WorkItem × ItemOutcome) :
    (collectStep d c).map Prod.fst = d.map Prod.fst := by
  cases hc : c.2 with
  | ok t tm b => simp [collectStep, hc, map_fst_dictAppendKey]
  | raised m => simp [collectStep, hc]

theorem isSome_collectStep (k : String) (d : List (String × List PageResult))
    (c : WorkItem × ItemOutcome) :
    (dictGet k (collectStep d c)).isSome = (dictGet k d).isSome := by
  cases hc : c.2 with
  | ok t tm b => simp [collectStep, hc, isSome_dictGet_dictAppendKey]
  | raised m => simp [collectStep, hc]

theorem map_fst_collectResults (completions : List (WorkItem × ItemOutcome))
    (d : List (String × List PageResult)) :
    (collectResults completions d).map Prod.fst = d.map Prod.fst := by
  induction completions generalizing d with
  | nil => rfl
  | cons c cs ih =>
      rw [collectResults, List.foldl_cons]
      rw [show List.foldl collectStep (collectStep d c) cs
        = collectResults cs (collectStep d c) from rfl]
      rw [ih, map_fst_collectStep]

theorem collectResults_get (completions : List (WorkItem × ItemOutcome))
    (n : String) (d : List (String × List PageResult)) (v : List PageResult)
    (hd : dictGet n d = some v) :
    dictGet n (collectResults completions d) = some (v ++ resultsFor n completions) := by
  induction completions generalizing d v with
  | nil => simpa [collectResults, resultsFor] using hd
  | cons c cs ih =>
      rw [collectResults, List.foldl_cons]
      rw [show List.foldl collectStep (collectStep d c) cs
        = collectResults cs (collectStep d c) from rfl]
      cases hc : c.2 with
      | ok t tm b =>
          by_cases hn : c.1.file_name = n
          · have hd' : dictGet n (collectStep d c) = some (v ++ [mkResult c.1 t tm b]) := by
              simp only [collectStep, hc, hn]
              exact dictGet_dictAppendKey_self n _ d v hd
            rw [ih _ _ hd']
            simp [resultsFor, hc, hn, List.append_assoc]
          · have hd' : dictGet n (collectStep d c) = some v := by
              simp only [collectStep, hc]
              rw [dictGet_dictAppendKey_ne n c.1.file_name _ d hn]
              exact hd
            rw [ih _ _ hd']
            simp [resultsFor, hc, hn]
      | raised m =>
          have hd' : dictGet n (collectStep d c) = some v := by
            simp only [collectStep, hc]
            exact hd
          rw [ih _ _ hd']
          simp [resultsFor, hc]

theorem totalResults_collectResults (completions : List (WorkItem × ItemOutcome))
    (d : List (String × List PageResult))
    (h : ∀ c ∈ completions, (dictGet c.1.file_name d).isSome = true) :
    totalResults (collectResults completions d)
      = totalResults d + (completions.filter fun c => c.2.isOk).length := by
  induction completions generalizing d with
  | nil => simp [collectResults]
  | cons c cs ih =>
      rw [collectResults, List.foldl_cons]
      rw [show List.foldl collectStep (collectStep d c) cs
        = collectResults cs (collectStep d c) from rfl]
      have hnext : ∀ c' ∈ cs, (dictGet c'.1.file_name (collectStep d c)).isSome = true := by
        intro c' hc'
        rw [isSome_collectStep]
        exact h c' (List.mem_cons_of_mem _ hc')
      rw [ih _ hnext]
      cases hc : c.2 with
      | ok t tm b =>
          have hstep : totalResults (collectStep d c) = totalResults d + 1 := by
            simp only [collectStep, hc]
            exact totalResults_dictAppendKey _ _ _ (h c (List.mem_cons_self _ _))
          rw [hstep]
          simp [hc, ItemOutcome.isOk]
          omega
      | raised m =>
          have hstep : totalResults (collectStep d c) = totalResults d := by
            simp [collectStep, hc]
          rw [hstep]
          simp [hc, ItemOutcome.isOk]

theorem resultsFor_cons_ok_pos (n : String) (c : WorkItem × ItemOutcome)
    (cs : List (WorkItem × ItemOutcome)) (t : String) (tm : Nat) (b : String)
    (hc : c.2 = .ok t tm b) (hn : c.1.file_name = n) :
    resultsFor n (c :: cs) = mkResult c.1 t tm b :: resultsFor n cs := by
  simp [resultsFor, List.filterMap_cons, hc, hn]

theorem resultsFor_cons_ok_neg (n : String) (c : WorkItem × ItemOutcome)
    (cs : List (WorkItem × ItemOutcome)) (t : String) (tm : Nat) (b : String)
    (hc : c.2 = .ok t tm b) (hn : ¬c.1.file_name = n) :
    resultsFor n (c :: cs) = resultsFor n cs := by
  simp [resultsFor, List.filterMap_cons, hc, hn]

theorem resultsFor_cons_raised (n : String) (c : WorkItem × ItemOutcome)
    (cs : List (WorkItem × ItemOutcome)) (m : String) (hc : c.2 = .raised m) :
    resultsFor n (c :: cs) = resultsFor n cs := by
  simp [resultsFor, List.filterMap_cons, hc]

theorem resultsFor_map_page (n : String) (completions : List (WorkItem × ItemOutcome))
    (hok : ∀ c ∈ completions, c.2.isOk = true) :
    (resultsFor n completions).map PageResult.page
      = ((completions.map Prod.fst).filter fun w => w.file_name = n).map
          WorkItem.page_idx := by
  induction completions with
  | nil => rfl
  | cons c cs ih =>
      have hc1 := hok c (List.mem_cons_self _ _)
      have hcs := fun c' hc' => hok c' (List.mem_cons_of_mem c hc')
      cases hc : c.2 with
      | ok t tm b =>
          by_cases hn : c.1.file_name = n
          · rw [resultsFor_cons_ok_pos n c cs t tm b hc hn]
            simp [List.filter_cons, hn, mkResult, ih hcs]
          · rw [resultsFor_cons_ok_neg n c cs t tm b hc hn]
            simp [List.filter_cons, hn, ih hcs]
      | raised m => rw [hc] at hc1; simp [ItemOutcome.isOk] at hc1

theorem resultsFor_length (n : String) (completions : List (WorkItem × ItemOutcome))
    (hok : ∀ c ∈ completions, c.2.isOk = true)
    (hname : ∀ c ∈ completions, c.1.file_name = n) :
    (resultsFor n completions).length = completions.length := by
  induction completions with
  | nil => rfl
  | cons c cs ih =>
      have hc1 := hok c (List.mem_cons_self _ _)
      have hn1 := hname c (List.mem_cons_self _ _)
      have hcs := fun c' hc' => hok c' (List.mem_cons_of_mem c hc')
      have hns := fun c' hc' => hname c' (List.mem_cons_of_mem c hc')
      cases hc : c.2 with
      | ok t tm b =>
          rw [resultsFor_cons_ok_pos n c cs t tm b hc hn1]
          simp [ih hcs hns]
      | raised m => rw [hc] at hc1; simp [ItemOutcome.isOk] at hc1

/-! ### Whole-run lemmas -/

theorem processRun_eq_active (raster : List Nat → Except String (List Image))
    (now : Nat) (uploads : List StoredFile)
    (completions : List (WorkItem × ItemOutcome)) (s : SessionState)
    (hup : uploads ≠ []) (hpr : s.processed = false)
    (hbatch : (rasterPhase raster now (storedOf uploads s)).all_pages ≠ []) :
    processRun raster now uploads completions s
      = ({ file_results := sortResults (collectResults completions
             (rasterPhase raster now (storedOf uploads s)).file_results)
           file_times := (rasterPhase raster now (storedOf uploads s)).file_times
           debug_info := (rasterPhase raster now (storedOf uploads s)).debug_info
           processed := true
           uploaded_files := storedOf uploads s },
         (rasterPhase raster now (storedOf uploads s)).errors
           ++ collectErrors completions) := by
  simp [processRun, hup, hpr, hbatch]

theorem processRun_eq_skip (raster : List Nat → Except String (List Image))
    (now : Nat) (uploads : List StoredFile)
    (completions : List (WorkItem × ItemOutcome)) (s : SessionState)
    (hup : uploads ≠ []) (hpr : s.processed = false)
    (hbatch : (rasterPhase raster now (storedOf uploads s)).all_pages = []) :
    processRun raster now uploads completions s
      = ({ file_results := (rasterPhase raster now (storedOf uploads s)).file_results
           file_times := (rasterPhase raster now (storedOf uploads s)).file_times
           debug_info := (rasterPhase raster now (storedOf uploads s)).debug_info
           processed := s.processed
           uploaded_files := storedOf uploads s },
         (rasterPhase raster now (storedOf uploads s)).errors) := by
  simp [processRun, hup, hpr, hbatch]

theorem batch_keys_isSome (raster : List Nat → Except String (List Image))
    (now : Nat) (files : List StoredFile) :
    ∀ w ∈ (rasterPhase raster now files).all_pages,
      (dictGet w.file_name (rasterPhase raster now files).file_results).isSome = true :=
  rasterFold_keys raster now files emptyRaster (by intro w hw; simp [emptyRaster] at hw)

theorem rasterPhase_totalResults (raster : List Nat → Except String (List Image))
    (now : Nat) (files : List StoredFile) :
    totalResults (rasterPhase raster now files).file_results = 0 :=
  totalResults_of_values_nil _
    (rasterFold_values_nil raster now files emptyRaster
      (by intro kv hkv; simp [emptyRaster] at hkv))

/-- Shared core of the per-document ordering guarantee: in a run whose
stored file names are unique, whose completion sequence is a permutation of
the submitted batch, and whose futures all return normally, a document that
rasterized to `ps` ends with a result list whose page indices are exactly
`1, 2, ..., ps.length`. -/
theorem run_group_range (raster : List Nat → Except String (List Image))
    (now : Nat) (uploads : List StoredFile)
    (completions : List (WorkItem × ItemOutcome)) (s : SessionState)
    (f : StoredFile) (ps : List Image)
    (hup : uploads ≠ []) (hpr : s.processed = false)
    (hnd : ((storedOf uploads s).map StoredFile.name).Nodup)
    (hf : f ∈ storedOf uploads s) (hok : raster f.data = .ok ps)
    (hperm : (completions.map Prod.fst).Perm
      (rasterPhase raster now (storedOf uploads s)).all_pages)
    (hall : ∀ c ∈ completions, c.2.isOk = true) :
    ∃ l, dictGet f.name (processRun raster now uploads completions s).1.file_results
        = some l
      ∧ l.map PageResult.page = List.range' 1 ps.length := by
  have hget := rasterPhase_get_of_mem raster now (storedOf uploads s) f ps hnd hf hok
  by_cases hbatch : (rasterPhase raster now (storedOf uploads s)).all_pages ≠ []
  · rw [processRun_eq_active raster now uploads completions s hup hpr hbatch]
    refine ⟨sortByPage (resultsFor f.name completions), ?_, ?_⟩
    · show dictGet f.name (sortResults (collectResults completions
        (rasterPhase raster now (storedOf uploads s)).file_results)) = _
      rw [dictGet_sortResults,
        collectResults_get completions f.name _ [] hget.1]
      simp
    · apply sortByPage_map_page_eq_range'
      rw [resultsFor_map_page f.name completions hall]
      have hfil := hperm.filter (fun w => decide (w.file_name = f.name))
      rw [rasterPhase_all_pages raster now (storedOf uploads s),
        flatMap_pages_filter raster (storedOf uploads s) f ps hnd hf hok] at hfil
      have hmap := hfil.map WorkItem.page_idx
      rw [workItemsOf_map_page_idx] at hmap
      exact hmap
  · rw [not_not] at hbatch
    have hps : ps = [] := by
      have h2 := flatMap_pages_filter raster (storedOf uploads s) f ps hnd hf hok
      rw [← rasterPhase_all_pages raster now (storedOf uploads s), hbatch] at h2
      exact workItemsOf_eq_nil f.name ps h2.symm
    rw [processRun_eq_skip raster now uploads completions s hup hpr hbatch]
    exact ⟨[], hget.1, by simp [hps]⟩

theorem isSome_collectResults (k : String) (completions : List (WorkItem × ItemOutcome))
    (d : List (String × List PageResult)) :
    (dictGet k (collectResults completions d)).isSome = (dictGet k d).isSome := by
  induction completions generalizing d with
  | nil => rfl
  | cons c cs ih =>
      rw [collectResults, List.foldl_cons]
      rw [show List.foldl collectStep (collectStep d c) cs
        = collectResults cs (collectStep d c) from rfl]
      rw [ih, isSome_collectStep]

theorem poolReach_running_le (N : Nat) (s1 s2 : PoolState)
    (h : PoolReach N s1 s2) (h1 : s1.running.length ≤ N) :
    s2.running.length ≤ N := by
  induction h with
  | refl => exact h1
  | tail hsteps hstep ih =>
      cases hstep with
      | start w rest running done hlt => simpa using hlt
      | finish pending pre post done w =>
          simp [List.length_append] at ih ⊢
          omega

/-! ### Concrete fixtures used by counterexamples and witnesses -/

/-- A concrete stand-in for `convert_from_bytes` in the closed theorems:
byte content `[1]` is a one-page document, `[2]` a two-page document, `[3]`
a zero-page document, and anything else fails to parse. -/
def demoRaster : List Nat → Except String (List Image) := fun b =>
  match b with
  | [1] => .ok [10]
  | [2] => .ok [20, 21]
  | [3] => .ok []
  | _ => .error "poppler failed"

/-! ### C3 -/

/-- A syntactically well-formed success response carrying HTTP status 201 —
a 2xx success whose first choice content the client nevertheless
discards. -/
def c3Resp : HttpResponse := ⟨201, "Created", .ok "hello"⟩

/-- C3 counterexample: the claim reads any HTTP success as yielding the
first choice's content, but `process_page` tests `status_code == 200`
exactly, so the 2xx response `c3Resp` (status 201, content `"hello"`) is
mapped to an error-as-text result instead of its content. -/
theorem c3_counterexample :
    200 ≤ c3Resp.status ∧ c3Resp.status < 300
    ∧ c3Resp.content = .ok "hello"
    ∧ inferText (.response c3Resp) = "Error: 201 - Created"
    ∧ inferText (.response c3Resp) ≠ "hello" :=
  ⟨by decide, by decide, rfl, by decide, by decide⟩

/-- C3 amended: for every page inference call, a status-200 response with a
well-formed body yields the first choice's content; a status-200 response
with a malformed body, any non-200 status (2xx or not), and any transport
fault are encoded into the page's text without raising, and `process_page`
pairs that text with the elapsed duration actually spent. -/
theorem c3_amended :
    (∀ r : HttpResponse, r.status = 200 → ∀ c, r.content = .ok c →
      inferText (.response r) = c)
    ∧ (∀ r : HttpResponse, r.status = 200 → ∀ m, r.content = .error m →
      inferText (.response r) = "Exception: " ++ m)
    ∧ (∀ r : HttpResponse, r.status ≠ 200 →
      inferText (.response r) = "Error: " ++ toString r.status ++ " - " ++ r.bodyText)
    ∧ (∀ m, inferText (.exn m) = "Exception: " ++ m)
    ∧ (∀ fn pg idx b64 o e, process_page fn pg idx b64 o e
        = ⟨fn, idx, inferText o, e, b64, pg⟩) := by
  refine ⟨?_, ?_, ?_, fun m => rfl, fun fn pg idx b64 o e => rfl⟩
  · intro r h200 c hc
    simp [inferText, h200, hc]
  · intro r h200 m hm
    simp [inferText, h200, hm]
  · intro r hne
    simp [inferText, hne]

/-- C3 witness: evaluating the amended theorem's success clause on a
concrete 200 response. -/
theorem c3_witness : inferText (.response ⟨200, "body", .ok "recognized"⟩) = "recognized" :=
  c3_amended.1 ⟨200, "body", .ok "recognized"⟩ rfl "recognized" rfl

/-! ### C4 -/

/-- C4: the concurrency-bound estimator always returns a value in `[1, 4]`;
without telemetry (`pynvml` raised) it returns exactly 2; with a device
count of 0 it returns 2; with at least one device it returns
`min(4, max(1, floor(free_GB / 3)))`. -/
theorem c4_capacity :
    (∀ t, 1 ≤ MAX_WORKERS t ∧ MAX_WORKERS t ≤ 4)
    ∧ MAX_WORKERS none = 2
    ∧ (∀ free, MAX_WORKERS (some (0, free)) = 2)
    ∧ (∀ dc free, 0 < dc →
        MAX_WORKERS (some (dc, free)) = min 4 (max 1 (free / (3 * 2 ^ 30)))) := by
  refine ⟨?_, rfl, fun free => rfl, fun dc free hdc => ?_⟩
  · intro t
    match t with
    | none => exact ⟨by decide, by decide⟩
    | some (dc, free) =>
        by_cases h : dc > 0
        · simp only [MAX_WORKERS, if_pos h]
          exact ⟨le_min (by decide) (le_max_left 1 _), min_le_left _ _⟩
        · simp only [MAX_WORKERS, if_neg h]
          exact ⟨by decide, by decide⟩
  · simp only [MAX_WORKERS, if_pos hdc]

/-- C4 witness: the telemetry formula evaluated at 2 devices and 13 GB
free. -/
theorem c4_witness :
    MAX_WORKERS (some (2, 13 * 2 ^ 30)) = min 4 (max 1 (13 * 2 ^ 30 / (3 * 2 ^ 30))) :=
  c4_capacity.2.2.2 2 (13 * 2 ^ 30) (by decide)

/-! ### C8 -/

/-- C8: for every page, the single request issued by `process_page` is a
POST to the vLLM endpoint whose JSON body is exactly the envelope the spec
describes — one user message holding the fixed instruction text plus the
base64 PNG inline data URL, `max_tokens` 4096, `temperature` 0.0 — with a
60-second client-side timeout. -/
theorem c8_request_shape : ∀ img_b64 : String,
    pageRequest img_b64 = specPageRequest img_b64
    ∧ (pageRequest img_b64).method = "POST"
    ∧ (pageRequest img_b64).url = VLLM_URL
    ∧ (pageRequest img_b64).timeoutSecs = 60 :=
  fun _ => ⟨rfl, rfl, rfl, rfl⟩

/-! ### C9 -/

/-- C9: with the concurrency bound taken from the capacity estimator's
output, every state the bounded pool can reach from the run's initial batch
has at most that many inference calls in flight. -/
theorem c9_bound (telemetry : Option (Nat × Nat))
    (raster : List Nat → Except String (List Image)) (now : Nat)
    (files : List StoredFile) (st : PoolState)
    (h : PoolReach (MAX_WORKERS telemetry)
      (initPool (rasterPhase raster now files).all_pages) st) :
    st.running.length ≤ MAX_WORKERS telemetry :=
  poolReach_running_le (MAX_WORKERS telemetry) _ st h (by simp [initPool])

/-- C9 witness: the initial pool state of a concrete one-document batch,
reached in zero steps, respects the fallback bound of 2. -/
theorem c9_witness :
    (initPool (rasterPhase demoRaster 0 [⟨"a.pdf", [1]⟩]).all_pages).running.length
      ≤ MAX_WORKERS none :=
  c9_bound none demoRaster 0 [⟨"a.pdf", [1]⟩] _ Relation.ReflTransGen.refl

/-! ### C1 -/

/-- A one-page upload whose only page's future raises. -/
def c1Up : List StoredFile := [⟨"a.pdf", [1]⟩]

/-- The completion sequence for `c1Up`: the single work item's wrapper
raises an unexpected fault. -/
def c1Comps : List (WorkItem × ItemOutcome) := [(⟨"a.pdf", 10, 1⟩, .raised "boom")]

/-- C1 counterexample: one WorkItem is submitted and its completion
sequence covers exactly the batch, yet because the wrapper raised, zero
PageResults are collected — `count(PageResults) != count(WorkItems)`,
refuting the claim's "even when the per-item wrapper raises" clause. -/
theorem c1_counterexample :
    (c1Comps.map Prod.fst).Perm (rasterPhase demoRaster 0 (storedOf c1Up initState)).all_pages
    ∧ (rasterPhase demoRaster 0 (storedOf c1Up initState)).all_pages.length = 1
    ∧ totalResults (processRun demoRaster 0 c1Up c1Comps initState).1.file_results = 0
    ∧ totalResults (processRun demoRaster 0 c1Up c1Comps initState).1.file_results
        ≠ (rasterPhase demoRaster 0 (storedOf c1Up initState)).all_pages.length := by
  refine ⟨by decide, by decide, by decide, by decide⟩

/-- C1 amended: the number of PageResults collected across all documents
equals the number of WorkItems whose wrapper returned normally (success and
error-as-text alike); a WorkItem whose wrapper raises contributes no
PageResult, without affecting the other items. -/
theorem c1_amended (raster : List Nat → Except String (List Image)) (now : Nat)
    (uploads : List StoredFile) (completions : List (WorkItem × ItemOutcome))
    (s : SessionState) (hup : uploads ≠ []) (hpr : s.processed = false)
    (hperm : (completions.map Prod.fst).Perm
      (rasterPhase raster now (storedOf uploads s)).all_pages) :
    totalResults (processRun raster now uploads completions s).1.file_results
      = (completions.filter fun c => c.2.isOk).length := by
  by_cases hbatch : (rasterPhase raster now (storedOf uploads s)).all_pages ≠ []
  · rw [processRun_eq_active raster now uploads completions s hup hpr hbatch]
    show totalResults (sortResults (collectResults completions
      (rasterPhase raster now (storedOf uploads s)).file_results)) = _
    rw [totalResults_sortResults, totalResults_collectResults completions _
      (fun c hc => batch_keys_isSome raster now (storedOf uploads s) c.1
        (hperm.subset (List.mem_map_of_mem Prod.fst hc))),
      rasterPhase_totalResults]
    simp
  · rw [not_not] at hbatch
    have hmap : completions.map Prod.fst = [] := by
      rw [hbatch] at hperm
      exact hperm.eq_nil
    have hnil : completions = [] := List.map_eq_nil_iff.mp hmap
    rw [processRun_eq_skip raster now uploads completions s hup hpr hbatch, hnil]
    show totalResults (rasterPhase raster now (storedOf uploads s)).file_results = _
    rw [rasterPhase_totalResults]
    rfl

/-- A two-page upload for the C1 witness. -/
def c1wUp : List StoredFile := [⟨"a.pdf", [2]⟩]

/-- Completions for `c1wUp`: page 1's wrapper returns, page 2's raises. -/
def c1wComps : List (WorkItem × ItemOutcome) :=
  [(⟨"a.pdf", 20, 1⟩, .ok "text one" 3 "b64one"), (⟨"a.pdf", 21, 2⟩, .raised "boom")]

/-- C1 witness: on a concrete two-page run with one wrapper fault, the
collected-result count equals the number of normally-returned wrappers. -/
theorem c1_witness :
    totalResults (processRun demoRaster 0 c1wUp c1wComps initState).1.file_results
      = (c1wComps.filter fun c => c.2.isOk).length :=
  c1_amended demoRaster 0 c1wUp c1wComps initState (by decide) (by decide) (by decide)

/-! ### C5 -/

/-- The first run's upload set for the C5 divergence. -/
def c5Up : List StoredFile := [⟨"a.pdf", [1]⟩]

/-- The first run's completion sequence for the C5 divergence. -/
def c5Comps : List (WorkItem × ItemOutcome) := [(⟨"a.pdf", 10, 1⟩, .ok "text-a" 2 "b64a")]

/-- The session state after the first run completes. -/
def c5After : SessionState := (processRun demoRaster 0 c5Up c5Comps initState).1

/-- A different upload set offered after the first run. -/
def c5UpB : List StoredFile := [⟨"b.pdf", [2]⟩]

/-- C5 divergence witness: after a completed run (`processed = true`, with
`a.pdf`'s results stored), offering the different upload set `b.pdf` leaves
the coordinator entirely inert — the guard
`if uploaded_files and not st.session_state.processed` is false, so no
reset and no processing happen, and the first run's state survives
unchanged. The code's own comment at line 148 ("Process files only if new
uploads or not yet processed") promises the opposite. -/
theorem c5_code_divergence :
    c5After.processed = true
    ∧ c5After.file_results.map Prod.fst = ["a.pdf"]
    ∧ c5UpB.map StoredFile.name ≠ c5Up.map StoredFile.name
    ∧ processRun demoRaster 1 c5UpB [] c5After = (c5After, [])
    ∧ processRun demoRaster 1 c5UpB
        [(⟨"b.pdf", 20, 1⟩, .ok "text-b" 2 "b64b"),
         (⟨"b.pdf", 21, 2⟩, .ok "text-b2" 2 "b64b2")] c5After = (c5After, []) := by
  refine ⟨by decide, by decide, by decide, by decide, by decide⟩

/-! ### C6 -/

/-- An upload whose document parses to zero pages. -/
def c6Up : List StoredFile := [⟨"z.pdf", [3]⟩]

/-- The state after a first invocation on the zero-page document: the batch
is empty, so line 212 never runs and `processed` stays `false`. -/
def c6First : SessionState := (processRun demoRaster 0 c6Up [] initState).1

/-- C6 counterexample: when the first invocation collected zero pages, the
`processed` flag is never set, so a second invocation with the same
document identity set re-executes the block — rasterizing again and
overwriting `file_times` with the new clock reading — rather than being a
no-op that leaves the first run's timings unchanged. -/
theorem c6_counterexample :
    c6Up.map StoredFile.name = c6First.uploaded_files.map StoredFile.name
    ∧ c6First.processed = false
    ∧ c6First.file_times = [("z.pdf", 0)]
    ∧ (processRun demoRaster 5 c6Up [] c6First).1.file_times = [("z.pdf", 5)]
    ∧ (processRun demoRaster 5 c6Up [] c6First).1.file_times ≠ c6First.file_times := by
  refine ⟨by decide, by decide, by decide, by decide, by decide⟩

/-- C6 amended: once an invocation has set the `processed` flag (it
dispatched at least one page), re-invoking the coordinator with the same
document identity set and no intervening changes is a strict no-op: the
state — results, timings, debug info, stored uploads — is returned
untouched and no notices are shown. -/
theorem c6_amended (raster : List Nat → Except String (List Image)) (now : Nat)
    (uploads : List StoredFile) (completions : List (WorkItem × ItemOutcome))
    (s : SessionState) (hpr : s.processed = true)
    (_hsame : uploads.map StoredFile.name = s.uploaded_files.map StoredFile.name) :
    processRun raster now uploads completions s = (s, []) := by
  simp [processRun, hpr]

/-- A completed-run state used by the C6 witness. -/
def c6wState : SessionState :=
  ⟨[("a.pdf", [⟨1, "text-a", 2, "b64a", 10⟩])], [("a.pdf", 0)],
   [("a.pdf", ⟨1, 1⟩)], true, [⟨"a.pdf", [1]⟩]⟩

/-- C6 witness: re-invoking on the completed state with the same name set
returns it untouched. -/
theorem c6_witness : processRun demoRaster 9 [⟨"a.pdf", [1]⟩] [] c6wState = (c6wState, []) :=
  c6_amended demoRaster 9 [⟨"a.pdf", [1]⟩] [] c6wState (by decide) (by decide)

/-! ### C2 -/

/-- A single two-page upload for the C2 counterexample. -/
def c2Up : List StoredFile := [⟨"a.pdf", [2]⟩]

/-- Completions for `c2Up` in which page 1's wrapper raises while page 2
returns normally. -/
def c2Comps : List (WorkItem × ItemOutcome) :=
  [(⟨"a.pdf", 20, 1⟩, .raised "boom"), (⟨"a.pdf", 21, 2⟩, .ok "text two" 4 "b64two")]

/-- C2 counterexample: the document rasterized successfully to 2 pages and
the completion sequence covers the whole batch, yet page 1's wrapper fault
leaves the aggregated sequence at `[2]` — not one entry per submitted page
`[1, 2]` — refuting the claim for this completion behavior. -/
theorem c2_counterexample :
    demoRaster [2] = .ok [20, 21]
    ∧ (c2Comps.map Prod.fst).Perm
        (rasterPhase demoRaster 0 (storedOf c2Up initState)).all_pages
    ∧ (dictGet "a.pdf" (processRun demoRaster 0 c2Up c2Comps initState).1.file_results).map
        (List.map PageResult.page) = some [2]
    ∧ (some [2] : Option (List Nat)) ≠ some (List.range' 1 2) := by
  refine ⟨rfl, by decide, by decide, by decide⟩

/-- C2 amended: for every document that rasterized successfully, provided
file names are unique within the run (the spec's declared precondition) and
every submitted page task's wrapper returns a result rather than raising,
the document's aggregated result sequence after the run is exactly the page
indices `1, 2, ..., page_count` — strictly increasing, no gaps, no
duplicates — for every completion order of the concurrent page tasks. -/
theorem c2_amended (raster : List Nat → Except String (List Image)) (now : Nat)
    (uploads : List StoredFile) (completions : List (WorkItem × ItemOutcome))
    (s : SessionState) (f : StoredFile) (ps : List Image)
    (hup : uploads ≠ []) (hpr : s.processed = false)
    (hnd : ((storedOf uploads s).map StoredFile.name).Nodup)
    (hf : f ∈ storedOf uploads s) (hok : raster f.data = .ok ps)
    (hperm : (completions.map Prod.fst).Perm
      (rasterPhase raster now (storedOf uploads s)).all_pages)
    (hall : ∀ c ∈ completions, c.2.isOk = true) :
    ∃ l, dictGet f.name (processRun raster now uploads completions s).1.file_results
        = some l
      ∧ l.map PageResult.page = List.range' 1 ps.length :=
  run_group_range raster now uploads completions s f ps hup hpr hnd hf hok hperm hall

/-- A two-document upload set for the C2 witness. -/
def c2wUp : List StoredFile := [⟨"a.pdf", [2]⟩, ⟨"b.pdf", [1]⟩]

/-- Completions for `c2wUp` arriving fully out of submission order, all
returning normally. -/
def c2wComps : List (WorkItem × ItemOutcome) :=
  [(⟨"b.pdf", 10, 1⟩, .ok "text b" 9 "b64b"),
   (⟨"a.pdf", 21, 2⟩, .ok "text two" 4 "b64two"),
   (⟨"a.pdf", 20, 1⟩, .ok "text one" 3 "b64one")]

/-- C2 witness: on a concrete two-document run whose completions arrive in
reverse order, `a.pdf`'s aggregated sequence is exactly `[1, 2]`. -/
theorem c2_witness :
    ∃ l, dictGet "a.pdf" (processRun demoRaster 0 c2wUp c2wComps initState).1.file_results
        = some l
      ∧ l.map PageResult.page = List.range' 1 2 :=
  c2_amended demoRaster 0 c2wUp c2wComps initState ⟨"a.pdf", [2]⟩ [20, 21]
    (by decide) (by decide) (by decide) (by decide) rfl (by decide) (by decide)

/-! ### C7 -/

/-- An upload set pairing an unparseable document with a valid two-page
one. -/
def c7Up : List StoredFile := [⟨"bad.pdf", [7]⟩, ⟨"b.pdf", [2]⟩]

/-- Completions for `c7Up`: the valid document's page 1 wrapper raises,
page 2 returns. -/
def c7Comps : List (WorkItem × ItemOutcome) :=
  [(⟨"b.pdf", 20, 1⟩, .raised "boom"), (⟨"b.pdf", 21, 2⟩, .ok "text two" 4 "b64two")]

/-- C7 counterexample: the rasterization failure of `bad.pdf` is caught,
surfaced with its name, and excludes it from the batch — but the sibling
document `b.pdf` does not produce its full ordered result set, because its
page 1 wrapper raised: its sequence is `[2]`, not `[1, 2]`. -/
theorem c7_counterexample :
    demoRaster [7] = .error "poppler failed"
    ∧ rasterNotice "bad.pdf" "poppler failed"
        ∈ (processRun demoRaster 0 c7Up c7Comps initState).2
    ∧ dictGet "bad.pdf" (processRun demoRaster 0 c7Up c7Comps initState).1.file_results
        = none
    ∧ (c7Comps.map Prod.fst).Perm
        (rasterPhase demoRaster 0 (storedOf c7Up initState)).all_pages
    ∧ (dictGet "b.pdf" (processRun demoRaster 0 c7Up c7Comps initState).1.file_results).map
        (List.map PageResult.page) = some [2]
    ∧ (some [2] : Option (List Nat)) ≠ some (List.range' 1 2) := by
  refine ⟨rfl, by decide, by decide, by decide, by decide, by decide⟩

/-- C7 amended: in every run with unique file names, a document whose bytes
fail rasterization is caught and surfaced as a per-document notice carrying
its name; it contributes no work items and no result, timing, or debug
entries; and — provided every submitted page task's wrapper returns a
result — every successfully rasterized document still produces its full
ordered result set; the run is never aborted. -/
theorem c7_amended (raster : List Nat → Except String (List Image)) (now : Nat)
    (uploads : List StoredFile) (completions : List (WorkItem × ItemOutcome))
    (s : SessionState) (bad : StoredFile) (msg : String)
    (hup : uploads ≠ []) (hpr : s.processed = false)
    (hnd : ((storedOf uploads s).map StoredFile.name).Nodup)
    (hbad : bad ∈ storedOf uploads s) (hberr : raster bad.data = .error msg)
    (hperm : (completions.map Prod.fst).Perm
      (rasterPhase raster now (storedOf uploads s)).all_pages)
    (hall : ∀ c ∈ completions, c.2.isOk = true) :
    rasterNotice bad.name msg ∈ (processRun raster now uploads completions s).2
    ∧ dictGet bad.name (processRun raster now uploads completions s).1.file_results = none
    ∧ dictGet bad.name (processRun raster now uploads completions s).1.file_times = none
    ∧ dictGet bad.name (processRun raster now uploads completions s).1.debug_info = none
    ∧ (∀ w ∈ (rasterPhase raster now (storedOf uploads s)).all_pages,
        w.file_name ≠ bad.name)
    ∧ (∀ f ∈ storedOf uploads s, ∀ ps, raster f.data = .ok ps →
        ∃ l, dictGet f.name (processRun raster now uploads completions s).1.file_results
            = some l
          ∧ l.map PageResult.page = List.range' 1 ps.length) := by
  have hcond : ∀ g ∈ storedOf uploads s, g.name = bad.name →
      ∃ e, raster g.data = .error e := by
    intro g hg he
    have hgb : g = bad := List.inj_on_of_nodup_map hnd hg hbad he
    exact ⟨msg, hgb ▸ hberr⟩
  have hnone := rasterPhase_get_none raster now (storedOf uploads s) bad.name hcond
  have hmem : rasterNotice bad.name msg
      ∈ (rasterPhase raster now (storedOf uploads s)).errors := by
    rw [rasterPhase, rasterFold_errors]
    refine List.mem_append.mpr (Or.inr ?_)
    exact List.mem_filterMap.mpr ⟨bad, hbad, by rw [hberr]⟩
  have hnames : ∀ w ∈ (rasterPhase raster now (storedOf uploads s)).all_pages,
      w.file_name ≠ bad.name := by
    intro w hw he
    rw [rasterPhase_all_pages] at hw
    obtain ⟨g, hg, hwg⟩ := List.mem_flatMap.mp hw
    have hgname : w.file_name = g.name := pagesOf_file_name raster g w hwg
    obtain ⟨e, herr⟩ := hcond g hg (hgname ▸ he)
    rw [pagesOf, herr] at hwg
    simp at hwg
  have hfull : ∀ f ∈ storedOf uploads s, ∀ ps, raster f.data = .ok ps →
      ∃ l, dictGet f.name (processRun raster now uploads completions s).1.file_results
          = some l
        ∧ l.map PageResult.page = List.range' 1 ps.length := fun f hf ps hok =>
    run_group_range raster now uploads completions s f ps hup hpr hnd hf hok hperm hall
  by_cases hbatch : (rasterPhase raster now (storedOf uploads s)).all_pages ≠ []
  · rw [processRun_eq_active raster now uploads completions s hup hpr hbatch] at hfull ⊢
    refine ⟨List.mem_append.mpr (Or.inl hmem), ?_, hnone.2.1, hnone.2.2, hnames, hfull⟩
    show dictGet bad.name (sortResults (collectResults completions
      (rasterPhase raster now (storedOf uploads s)).file_results)) = none
    rw [dictGet_sortResults]
    have hsome : (dictGet bad.name (collectResults completions
        (rasterPhase raster now (storedOf uploads s)).file_results)).isSome = false := by
      rw [isSome_collectResults, hnone.1]
      rfl
    have heq : dictGet bad.name (collectResults completions
        (rasterPhase raster now (storedOf uploads s)).file_results) = none :=
      Option.not_isSome_iff_eq_none.mp (by rw [hsome]; exact Bool.false_ne_true)
    rw [heq]
    rfl
  · rw [not_not] at hbatch
    rw [processRun_eq_skip raster now uploads completions s hup hpr hbatch] at hfull ⊢
    exact ⟨hmem, hnone.1, hnone.2.1, hnone.2.2, hnames, hfull⟩

/-- Completions for the C7 witness: both of `b.pdf`'s pages return, out of
order. -/
def c7wComps : List (WorkItem × ItemOutcome) :=
  [(⟨"b.pdf", 21, 2⟩, .ok "text two" 4 "b64two"),
   (⟨"b.pdf", 20, 1⟩, .ok "text one" 3 "b64one")]

/-- C7 witness: on the concrete bad-plus-valid run with all wrappers
returning, the notice names `bad.pdf`, `bad.pdf` has no entries anywhere,
no work item carries its name, and `b.pdf` completes `[1, 2]` in order. -/
theorem c7_witness :
    rasterNotice "bad.pdf" "poppler failed"
        ∈ (processRun demoRaster 0 c7Up c7wComps initState).2
    ∧ dictGet "bad.pdf" (processRun demoRaster 0 c7Up c7wComps initState).1.file_results
        = none
    ∧ dictGet "bad.pdf" (processRun demoRaster 0 c7Up c7wComps initState).1.file_times
        = none
    ∧ dictGet "bad.pdf" (processRun demoRaster 0 c7Up c7wComps initState).1.debug_info
        = none
    ∧ (∀ w ∈ (rasterPhase demoRaster 0 (storedOf c7Up initState)).all_pages,
        w.file_name ≠ "bad.pdf")
    ∧ (∀ f ∈ storedOf c7Up initState, ∀ ps, demoRaster f.data = .ok ps →
        ∃ l, dictGet f.name (processRun demoRaster 0 c7Up c7wComps initState).1.file_results
            = some l
          ∧ l.map PageResult.page = List.range' 1 ps.length) :=
  c7_amended demoRaster 0 c7Up c7wComps initState ⟨"bad.pdf", [7]⟩ "poppler failed"
    (by decide) (by decide) (by decide) (by decide) rfl (by decide) (by decide)

/-! ### C10 -/

/-- C10: aggregated results are keyed solely by document name. A run of two
documents sharing one name ends with a single result group under that name:
the later document's rasterization overwrites the byte-size/page-count
metadata (and re-resets the shared result list), while the page results of
both documents' work items all land in that one group — so its size is the
two page counts combined, not one document's. -/
theorem c10_duplicate_names (raster : List Nat → Except String (List Image))
    (now : Nat) (n : String) (d1 d2 : List Nat) (ps1 ps2 : List Image)
    (completions : List (WorkItem × ItemOutcome)) (s : SessionState)
    (hpr : s.processed = false)
    (hst : storedOf [⟨n, d1⟩, ⟨n, d2⟩] s = [⟨n, d1⟩, ⟨n, d2⟩])
    (h1 : raster d1 = .ok ps1) (h2 : raster d2 = .ok ps2)
    (hperm : (completions.map Prod.fst).Perm
      (rasterPhase raster now [⟨n, d1⟩, ⟨n, d2⟩]).all_pages)
    (hall : ∀ c ∈ completions, c.2.isOk = true) :
    (processRun raster now [⟨n, d1⟩, ⟨n, d2⟩] completions s).1.file_results.map Prod.fst
        = [n]
    ∧ dictGet n (processRun raster now [⟨n, d1⟩, ⟨n, d2⟩] completions s).1.debug_info
        = some ⟨d2.length, ps2.length⟩
    ∧ ∃ l, dictGet n (processRun raster now [⟨n, d1⟩, ⟨n, d2⟩] completions s).1.file_results
          = some l
        ∧ l.length = ps1.length + ps2.length := by
  have hup : ([⟨n, d1⟩, ⟨n, d2⟩] : List StoredFile) ≠ [] := by simp
  have hr : rasterPhase raster now [⟨n, d1⟩, ⟨n, d2⟩]
      = ⟨workItemsOf n ps1 ++ workItemsOf n ps2, ps1.length + ps2.length,
         [(n, now)], [(n, [])], [(n, ⟨d2.length, ps2.length⟩)], []⟩ := by
    simp [rasterPhase, List.foldl_cons, List.foldl_nil, rasterStep, h1, h2,
      emptyRaster, dictSet]
  have hnames : ∀ c ∈ completions, c.1.file_name = n := by
    intro c hc
    have hmem : c.1 ∈ (rasterPhase raster now [⟨n, d1⟩, ⟨n, d2⟩]).all_pages :=
      hperm.subset (List.mem_map_of_mem Prod.fst hc)
    rw [hr] at hmem
    rcases List.mem_append.mp hmem with hmem | hmem
    · exact workItemsOf_file_name n ps1 c.1 hmem
    · exact workItemsOf_file_name n ps2 c.1 hmem
  have hlen : completions.length = ps1.length + ps2.length := by
    have hl := hperm.length_eq
    rw [hr] at hl
    simpa [workItemsOf_length] using hl
  by_cases hbatch : (rasterPhase raster now
      (storedOf [⟨n, d1⟩, ⟨n, d2⟩] s)).all_pages ≠ []
  · rw [processRun_eq_active raster now [⟨n, d1⟩, ⟨n, d2⟩] completions s hup hpr hbatch]
    have hget : dictGet n (rasterPhase raster now
        (storedOf [⟨n, d1⟩, ⟨n, d2⟩] s)).file_results = some [] := by
      rw [hst, hr]; simp [dictGet]
    refine ⟨?_, ?_, ?_⟩
    · show (sortResults (collectResults completions _)).map Prod.fst = [n]
      rw [map_fst_sortResults, map_fst_collectResults, hst, hr]
      rfl
    · show dictGet n (rasterPhase raster now (storedOf [⟨n, d1⟩, ⟨n, d2⟩] s)).debug_info = _
      rw [hst, hr]
      simp [dictGet]
    · refine ⟨sortByPage (resultsFor n completions), ?_, ?_⟩
      · show dictGet n (sortResults (collectResults completions _)) = _
        rw [dictGet_sortResults, collectResults_get completions n _ [] hget]
        simp
      · rw [sortByPage_length, resultsFor_length n completions hall hnames, hlen]
  · rw [not_not, hst, hr] at hbatch
    have hps := List.append_eq_nil.mp hbatch
    have hps1 : ps1 = [] := workItemsOf_eq_nil n ps1 hps.1
    have hps2 : ps2 = [] := workItemsOf_eq_nil n ps2 hps.2
    have hbatch' : (rasterPhase raster now
        (storedOf [⟨n, d1⟩, ⟨n, d2⟩] s)).all_pages = [] := by
      rw [hst, hr, hps.1, hps.2]
      rfl
    rw [processRun_eq_skip raster now [⟨n, d1⟩, ⟨n, d2⟩] completions s hup hpr hbatch']
    refine ⟨?_, ?_, [], ?_, ?_⟩
    · show (rasterPhase raster now (storedOf [⟨n, d1⟩, ⟨n, d2⟩] s)).file_results.map
          Prod.fst = [n]
      rw [hst, hr]
      rfl
    · show dictGet n (rasterPhase raster now (storedOf [⟨n, d1⟩, ⟨n, d2⟩] s)).debug_info = _
      rw [hst, hr]
      simp [dictGet]
    · show dictGet n (rasterPhase raster now (storedOf [⟨n, d1⟩, ⟨n, d2⟩] s)).file_results = _
      rw [hst, hr]
      simp [dictGet]
    · simp [hps1, hps2]

/-- Completions for the C10 witness: both same-named documents' work items
return normally. -/
def c10wComps : List (WorkItem × ItemOutcome) :=
  [(⟨"dup.pdf", 20, 1⟩, .ok "from doc two p1" 3 "b20"),
   (⟨"dup.pdf", 10, 1⟩, .ok "from doc one p1" 2 "b10"),
   (⟨"dup.pdf", 21, 2⟩, .ok "from doc two p2" 4 "b21")]

/-- C10 witness: a concrete run of a one-page and a two-page document both
named `dup.pdf` ends with the single group holding 3 entries and the second
document's metadata. -/
theorem c10_witness :
    (processRun demoRaster 0 [⟨"dup.pdf", [1]⟩, ⟨"dup.pdf", [2]⟩] c10wComps
        initState).1.file_results.map Prod.fst = ["dup.pdf"]
    ∧ dictGet "dup.pdf" (processRun demoRaster 0 [⟨"dup.pdf", [1]⟩, ⟨"dup.pdf", [2]⟩]
        c10wComps initState).1.debug_info = some ⟨1, 2⟩
    ∧ ∃ l, dictGet "dup.pdf" (processRun demoRaster 0 [⟨"dup.pdf", [1]⟩, ⟨"dup.pdf", [2]⟩]
          c10wComps initState).1.file_results = some l
        ∧ l.length = 1 + 2 :=
  c10_duplicate_names demoRaster 0 "dup.pdf" [1] [2] [10] [20, 21] c10wComps initState
    (by decide) (by decide) rfl rfl (by decide) (by decide)

end QwenOCR
